import Mathlib

/-!
Verification of the `dotenv` Go package (talut/dotenv).

The package keeps two pieces of process-wide state: the process environment
(a key/value table written by `Load` via `os.Setenv` and read via
`os.LookupEnv`) and a memoization cache (`map[string]string`).  We embed
both as association lists where an insertion prepends the new pair, so a
lookup that takes the first match sees the most recent write — the same
observable behaviour as Go's map assignment and `os.Setenv` overwrite.

Strings are Lean `String`s; the byte-index operations of the Go code
(`strings.Index`, slicing around the first `'='`, quote tests on
`value[0]`/`value[len-1]`) are rendered on the underlying character list.
Since `'='`, `'"'`, `'\''`, `'#'` and `'\n'` are one-byte ASCII characters,
byte-level and character-level splitting agree on the texts produced.
-/

namespace Dotenv

/-- The environment / cache representation: newest binding first. -/
abbrev Env := List (String × String)

/-- First-match lookup: `os.LookupEnv` and Go map indexing. -/
def envLookup (env : Env) (key : String) : Option String :=
  (env.find? (fun p => p.1 == key)).map (fun p => p.2)

/-- The two pieces of process-wide state of the package. -/
structure St where
  env : Env
  cache : Env
  deriving Repr, DecidableEq

/-- `ClearCache`: `cache = make(map[string]string)`. -/
def ClearCache (st : St) : St := ⟨st.env, []⟩

/-- Whitespace per Go `unicode.IsSpace`, i.e. the Unicode White_Space
property: tab through carriage return, space, next line (U+0085),
no-break space (U+00A0), ogham space mark (U+1680), the en-quad..hair-space
block (U+2000–U+200A), line and paragraph separators (U+2028, U+2029),
narrow no-break space (U+202F), medium mathematical space (U+205F) and
ideographic space (U+3000). -/
def goIsSpace (c : Char) : Bool :=
  c == ' ' || c == Char.ofNat 9 || c == Char.ofNat 10 || c == Char.ofNat 11 ||
  c == Char.ofNat 12 || c == Char.ofNat 13 || c == Char.ofNat 0x85 || c == Char.ofNat 0xA0 ||
  c == Char.ofNat 0x1680 || decide (0x2000 ≤ c.toNat ∧ c.toNat ≤ 0x200A) ||
  c == Char.ofNat 0x2028 || c == Char.ofNat 0x2029 || c == Char.ofNat 0x202F ||
  c == Char.ofNat 0x205F || c == Char.ofNat 0x3000

/-- `strings.TrimSpace` on the character list. -/
def goTrimList (l : List Char) : List Char :=
  ((l.dropWhile goIsSpace).reverse.dropWhile goIsSpace).reverse

/-- `strings.TrimSpace`. -/
def goTrim (s : String) : String := ⟨goTrimList s.data⟩

/-- The single-quote character, `'\''` in the Go source. -/
def squote : Char := Char.ofNat 39

/-- The outer-quote stripping step of `Load` (dotenv.go lines 56-61):
if the trimmed value has byte length `> 1` and its first and last bytes are
both `'"'` or both `'\''`, the slice `value[1 : len(value)-1]` is kept. -/
def stripQuotes (value : String) : String :=
  if value.data.length > 1 ∧
      ((value.data.head? = some '"' ∧ value.data.getLast? = some '"') ∨
       (value.data.head? = some squote ∧ value.data.getLast? = some squote)) then
    ⟨value.data.tail.dropLast⟩
  else value

/-- Written from the spec's words: "If the value (after trimming) is at
least 2 characters and its first and last characters are a matching pair of
double quotes or a matching pair of single quotes, strip exactly that one
outer pair". -/
def specStripQuotes (value : String) : String :=
  if 2 ≤ value.data.length ∧
      ((value.data.head? = some '"' ∧ value.data.getLast? = some '"') ∨
       (value.data.head? = some squote ∧ value.data.getLast? = some squote)) then
    ⟨value.data.tail.dropLast⟩
  else value

/-- One iteration of the line loop of `Load` (dotenv.go lines 42-61):
trim, skip blanks and `#` comments, skip lines without `'='`, split at the
first `'='`, trim both sides, strip one layer of quotes from the value.
`none` means the line sets nothing. -/
def parseLine (line : String) : Option (String × String) :=
  let t := goTrim line
  if t.data = [] ∨ t.data.head? = some '#' then none
  else if '=' ∈ t.data then
    let key := goTrim ⟨t.data.takeWhile (fun c => c != '=')⟩
    let value := goTrim ⟨(t.data.dropWhile (fun c => c != '=')).tail⟩
    some (key, stripQuotes value)
  else none

/-- `strings.Split` on a single separator character. -/
def splitChar (c : Char) : List Char → List (List Char)
  | [] => [[]]
  | x :: xs =>
    let r := splitChar c xs
    if x == c then [] :: r
    else
      match r with
      | [] => [[x]]
      | l :: ls => (x :: l) :: ls

/-- `strings.Split(string(contents), "\n")`. -/
def splitLines (s : String) : List String :=
  (splitChar (Char.ofNat 10) s.data).map String.mk

/-- `os.Setenv` succeeds unless the key is empty or contains `'='` or NUL,
or the value contains NUL (Go `syscall.Setenv`). -/
def setenvOk (k v : String) : Bool :=
  k != "" && !(k.data.contains '=') && !(k.data.contains (Char.ofNat 0)) &&
  !(v.data.contains (Char.ofNat 0))

/-- The per-file line loop of `Load`: each parsed assignment is written to
the environment (prepend = overwrite for first-match lookup); a failing
`os.Setenv` aborts with the environment as mutated so far. -/
def applyLines (env : Env) : List String → Except Env Env
  | [] => .ok env
  | line :: rest =>
    match parseLine line with
    | none => applyLines env rest
    | some (k, v) =>
      if setenvOk k v then applyLines ((k, v) :: env) rest
      else .error env

/-- Outcome of `os.Stat` + `os.ReadFile` for one path. -/
inductive FileRes where
  | absent
  | unreadable
  | content (s : String)
  deriving Repr, DecidableEq

/-- The file system visible to `Load`: names not listed are absent. -/
abbrev FS := List (String × FileRes)

/-- `os.Stat` / `os.ReadFile` for one name. -/
def statRead (fs : FS) (name : String) : FileRes :=
  match fs.find? (fun p => p.1 == name) with
  | some p => p.2
  | none => .absent

/-- The file loop of `Load` (dotenv.go lines 31-70): skip absent files,
return the I/O error on an unreadable one, apply the lines of a readable
one; after the loop, clear the cache.  The `Bool` is `true` when `Load`
returned an error. -/
def loadGo (fs : FS) : List String → St → St × Bool
  | [], st => (ClearCache st, false)
  | n :: rest, st =>
    match statRead fs n with
    | .absent => loadGo fs rest st
    | .unreadable => (st, true)
    | .content s =>
      match applyLines st.env (splitLines s) with
      | .error envPartial => (⟨envPartial, st.cache⟩, true)
      | .ok env₁ => loadGo fs rest ⟨env₁, st.cache⟩

/-- The `len(filenames) == 0` default of `Load`. -/
def defaultNames (names : List String) : List String :=
  if names.isEmpty then [".env"] else names

/-- `Load(filenames ...string) error`: an empty argument list defaults to
`[".env"]`. -/
def Load (fs : FS) (names : List String) (st : St) : St × Bool :=
  loadGo fs (defaultNames names) st

/-- `GetString` (dotenv.go lines 76-86): cached value if present, else the
environment value with absent-or-empty replaced by the fallback; the
resolved value is written to the cache. -/
def GetString (st : St) (key fallback : String) : String × St :=
  match envLookup st.cache key with
  | some value => (value, st)
  | none =>
    let value :=
      match envLookup st.env key with
      | none => fallback
      | some v => if v = "" then fallback else v
    (value, ⟨st.env, (key, value) :: st.cache⟩)

/-- The shared tail of the typed getters: parse the resolved string; on
failure log a diagnostic (the `Bool`) and return the fallback. -/
def finishParse {α : Type} (parse : String → Option α) (fallback : α) (value : String)
    (st : St) : α × St × Bool :=
  match parse value with
  | none => (fallback, st, true)
  | some x => (x, st, false)

/-- The common shape of `GetBool`/`GetInt`/`GetFloat`/`GetDuration`
(dotenv.go lines 92-170), abstracted over the `strconv`/`time` parser:
cached string if present; else environment — absent returns the fallback
with no cache write, present caches the raw string; then parse. -/
def getTyped {α : Type} (parse : String → Option α) (st : St) (key : String)
    (fallback : α) : α × St × Bool :=
  match envLookup st.cache key with
  | some value => finishParse parse fallback value st
  | none =>
    match envLookup st.env key with
    | none => (fallback, st, false)
    | some value => finishParse parse fallback value ⟨st.env, (key, value) :: st.cache⟩

/-- `strconv.ParseBool`. -/
def goParseBool (s : String) : Option Bool :=
  if s == "1" || s == "t" || s == "T" || s == "true" || s == "TRUE" || s == "True" then
    some true
  else if s == "0" || s == "f" || s == "F" || s == "false" || s == "FALSE" || s == "False" then
    some false
  else none

/-- Decimal digits to a natural number. -/
def digitsToNat (l : List Char) : Nat :=
  l.foldl (fun acc c => acc * 10 + (c.toNat - 48)) 0

/-- `strconv.Atoi`: optional sign, one or more decimal digits, value within
the 64-bit signed range; anything else is an error. -/
def goAtoi (s : String) : Option Int :=
  match s.data with
  | [] => none
  | c :: rest =>
    let signed : Bool × List Char :=
      if c == '-' then (true, rest)
      else if c == '+' then (false, rest)
      else (false, c :: rest)
    if signed.2.isEmpty || !(signed.2.all Char.isDigit) then none
    else
      let v : Int :=
        if signed.1 then -(digitsToNat signed.2 : Int) else (digitsToNat signed.2 : Int)
      if -(2 ^ 63) ≤ v ∧ v ≤ 2 ^ 63 - 1 then some v else none

/-- `GetBool` (dotenv.go lines 92-107). -/
def GetBool (st : St) (key : String) (fallback : Bool) : Bool × St × Bool :=
  getTyped goParseBool st key fallback

/-- `GetInt` (dotenv.go lines 113-128). -/
def GetInt (st : St) (key : String) (fallback : Int) : Int × St × Bool :=
  getTyped goAtoi st key fallback

/-- The common shape of the `MustGet` family (dotenv.go lines 184-236):
a direct environment lookup, a panic (modelled as `.error` with the panic
message, the `strconv`/`time` error detail abstracted away) when the key is
unset or unparsable, the parsed value otherwise.  The cache is neither read
nor written: the functions do not take it at all. -/
def mustGetTyped {α : Type} (parse : String → Option α) (env : Env) (key : String) :
    Except String α :=
  match envLookup env key with
  | none => .error ("Environment variable " ++ key ++ " is not set")
  | some value =>
    match parse value with
    | none => .error ("Failed to parse " ++ key)
    | some x => .ok x

/-- `MustGetString` (dotenv.go lines 174-180): panics only on an unset key;
an empty value is returned as-is. -/
def MustGetString (env : Env) (key : String) : Except String String :=
  match envLookup env key with
  | none => .error ("Environment variable " ++ key ++ " is not set")
  | some value => .ok value

/-- `MustGetBool` (dotenv.go lines 184-194). -/
def MustGetBool (env : Env) (key : String) : Except String Bool :=
  mustGetTyped goParseBool env key

/-- `MustGetInt` (dotenv.go lines 198-208). -/
def MustGetInt (env : Env) (key : String) : Except String Int :=
  mustGetTyped goAtoi env key

/-- The assignments produced by one file's contents, in order. -/
def fileAssignments (s : String) : List (String × String) :=
  (splitLines s).filterMap parseLine

/-- All assignments a `Load` over `names` processes, in order. -/
def loadAssignments (fs : FS) : List String → List (String × String)
  | [] => []
  | n :: rest =>
    (match statRead fs n with
     | .content s => fileAssignments s
     | _ => []) ++ loadAssignments fs rest

/-- The value of the LAST assignment to `k` in the list, if any. -/
def lastVal (as : List (String × String)) (k : String) : Option String :=
  (as.reverse.find? (fun p => p.1 == k)).map (fun p => p.2)

/-- C1: `GetString` returns the cached value when the key is cached;
otherwise it resolves the key against the environment, replacing an absent
or empty value by the fallback, and stores the resolved value in the cache. -/
theorem getString_resolution (st : St) (key fb : String) :
    (∀ v, envLookup st.cache key = some v → GetString st key fb = (v, st)) ∧
    (envLookup st.cache key = none →
      ((envLookup st.env key = none ∨ envLookup st.env key = some "") →
        GetString st key fb = (fb, ⟨st.env, (key, fb) :: st.cache⟩)) ∧
      (∀ v, envLookup st.env key = some v → v ≠ "" →
        GetString st key fb = (v, ⟨st.env, (key, v) :: st.cache⟩))) := by
  refine ⟨fun v hv => ?_, fun hc => ⟨fun he => ?_, fun v hv hne => ?_⟩⟩
  · simp [GetString, hv]
  · rcases he with he | he <;> simp [GetString, hc, he]
  · simp [GetString, hc, hv, hne]

/-- Witness for C1 at a concrete state: a cache miss on a key set in the
environment returns the environment value and caches it. -/
theorem getString_resolution_witness :
    GetString ⟨[("K", "x")], []⟩ "K" "fb" = ("x", ⟨[("K", "x")], [("K", "x")]⟩) :=
  ((getString_resolution ⟨[("K", "x")], []⟩ "K" "fb").2 rfl).2 "x" rfl (by decide)

/-- C2: each typed getter (the `getTyped` shape shared by
`GetBool`/`GetInt`/`GetFloat`/`GetDuration`, for any parser) re-parses the
cached string on a cache hit; on a cache miss with the key absent from the
environment it returns the fallback without touching the cache; with the
key present it caches the raw string and then parses, a parse failure
logging a diagnostic and returning the fallback while the raw string stays
cached. -/
theorem getTyped_resolution {α : Type} (parse : String → Option α) (st : St)
    (key : String) (fb : α) :
    (∀ v, envLookup st.cache key = some v →
      getTyped parse st key fb = finishParse parse fb v st) ∧
    (envLookup st.cache key = none → envLookup st.env key = none →
      getTyped parse st key fb = (fb, st, false)) ∧
    (∀ v, envLookup st.cache key = none → envLookup st.env key = some v →
      getTyped parse st key fb = finishParse parse fb v ⟨st.env, (key, v) :: st.cache⟩) ∧
    (∀ v x st', parse v = some x → finishParse parse fb v st' = (x, st', false)) ∧
    (∀ v st', parse v = none → finishParse parse fb v st' = (fb, st', true)) := by
  refine ⟨fun v hv => ?_, fun hc he => ?_, fun v hc hv => ?_,
    fun v x st' hp => ?_, fun v st' hp => ?_⟩
  · simp [getTyped, hv]
  · simp [getTyped, hc, he]
  · simp [getTyped, hc, hv]
  · simp [finishParse, hp]
  · simp [finishParse, hp]

/-- Witness for C2 at `GetBool` on an unparsable value: the raw string is
cached, a diagnostic is emitted and the fallback returned. -/
theorem getTyped_resolution_witness :
    GetBool ⟨[("B", "nope")], []⟩ "B" true = (true, ⟨[("B", "nope")], [("B", "nope")]⟩, true) := by
  have h := (getTyped_resolution goParseBool ⟨[("B", "nope")], []⟩ "B" true).2.2.1
    "nope" rfl rfl
  exact h.trans rfl

/-- C3: the `MustGet` family looks up the environment directly, fails with
a message naming the key when the key is unset or its value does not parse,
and returns the parsed value otherwise; `MustGetString` fails only on an
unset key. -/
theorem mustGet_spec {α : Type} (parse : String → Option α) (env : Env) (key : String) :
    (envLookup env key = none →
      MustGetString env key = .error ("Environment variable " ++ key ++ " is not set") ∧
      mustGetTyped parse env key =
        .error ("Environment variable " ++ key ++ " is not set")) ∧
    (∀ v, envLookup env key = some v →
      MustGetString env key = .ok v ∧
      (parse v = none → mustGetTyped parse env key = .error ("Failed to parse " ++ key)) ∧
      (∀ x, parse v = some x → mustGetTyped parse env key = .ok x)) := by
  refine ⟨fun h => ⟨?_, ?_⟩, fun v hv => ⟨?_, fun hp => ?_, fun x hp => ?_⟩⟩
  · simp [MustGetString, h]
  · simp [mustGetTyped, h]
  · simp [MustGetString, hv]
  · simp [mustGetTyped, hv, hp]
  · simp [mustGetTyped, hv, hp]

/-- Witness for C3: `MustGetBool` fails on an unset key, `MustGetInt`
parses a set numeric value. -/
theorem mustGet_spec_witness :
    MustGetBool [] "K" = .error "Environment variable K is not set" ∧
    MustGetInt [("N", "42")] "N" = .ok 42 :=
  ⟨((mustGet_spec goParseBool [] "K").1 rfl).2,
   ((mustGet_spec goAtoi [("N", "42")] "N").2 "42" rfl).2.2 42 (by decide)⟩

/-- C8: once a key has a cached string, `GetString` and every typed getter
compute their result from that cached string alone — the environment
component of the state is arbitrary and is left unchanged, as is the cache —
and only `ClearCache` empties the cache. -/
theorem cached_key_ignores_environment {α : Type} (envA cacheA : Env)
    (key v fb : String) (parse : String → Option α) (fbt : α)
    (h : envLookup cacheA key = some v) :
    GetString ⟨envA, cacheA⟩ key fb = (v, ⟨envA, cacheA⟩) ∧
    getTyped parse ⟨envA, cacheA⟩ key fbt = finishParse parse fbt v ⟨envA, cacheA⟩ ∧
    ClearCache ⟨envA, cacheA⟩ = ⟨envA, []⟩ := by
  refine ⟨?_, ?_, rfl⟩
  · simp [GetString, h]
  · simp [getTyped, h]

/-- Witness for C8: with `("P", "7")` cached, `GetString` returns `"7"`
under two different environments, ignoring both. -/
theorem cached_key_ignores_environment_witness :
    GetString ⟨[("P", "old")], [("P", "7")]⟩ "P" "fb" = ("7", ⟨[("P", "old")], [("P", "7")]⟩) ∧
    GetString ⟨[("P", "new")], [("P", "7")]⟩ "P" "fb" = ("7", ⟨[("P", "new")], [("P", "7")]⟩) :=
  ⟨(cached_key_ignores_environment [("P", "old")] [("P", "7")] "P" "7" "fb"
      goParseBool true rfl).1,
   (cached_key_ignores_environment [("P", "new")] [("P", "7")] "P" "7" "fb"
      goParseBool true rfl).1⟩

/-- C10: a key set to the empty string is returned as `""` by
`MustGetString` (no failure), while `GetString` on a cache miss treats it
as absent and returns the fallback. -/
theorem empty_value_get_vs_must (env cacheA : Env) (key fb : String)
    (h : envLookup env key = some "") (hc : envLookup cacheA key = none) :
    MustGetString env key = .ok "" ∧
    (GetString ⟨env, cacheA⟩ key fb).1 = fb := by
  constructor
  · simp [MustGetString, h]
  · simp [GetString, hc, h]

/-- Witness for C10 at a concrete environment with `E=""`. -/
theorem empty_value_get_vs_must_witness :
    MustGetString [("E", "")] "E" = .ok "" ∧
    (GetString ⟨[("E", "")], []⟩ "E" "fallback").1 = "fallback" :=
  empty_value_get_vs_must [("E", "")] [] "E" "fallback" rfl rfl

theorem stripQuotes_eq_spec (v : String) : stripQuotes v = specStripQuotes v := rfl

/-- C4: the line grammar of `Load`.  A line is trimmed; an empty or
`#`-leading result sets nothing; a line without `'='` sets nothing; else
the key is the trimmed text before the first `'='`, the value the trimmed
text after it (empty when nothing follows), with exactly one outer pair of
matching double or single quotes removed per the spec's rule. -/
theorem parseLine_spec (line : String) :
    (goTrim line = "" ∨ (goTrim line).data.head? = some '#' → parseLine line = none) ∧
    ('=' ∉ (goTrim line).data → parseLine line = none) ∧
    ('=' ∈ (goTrim line).data → goTrim line ≠ "" →
      (goTrim line).data.head? ≠ some '#' →
      parseLine line =
        some (goTrim ⟨(goTrim line).data.takeWhile (fun c => c != '=')⟩,
          specStripQuotes
            (goTrim ⟨((goTrim line).data.dropWhile (fun c => c != '=')).tail⟩))) := by
  refine ⟨fun h => ?_, fun h => ?_, fun hmem hne hhash => ?_⟩
  · have hd : (goTrim line).data = [] ∨ (goTrim line).data.head? = some '#' := by
      rcases h with h | h
      · exact Or.inl (by rw [h])
      · exact Or.inr h
    simp [parseLine, hd]
  · by_cases h0 : (goTrim line).data = [] ∨ (goTrim line).data.head? = some '#'
    · simp [parseLine, h0]
    · simp [parseLine, h0, h]
  · have h0 : ¬ ((goTrim line).data = [] ∨ (goTrim line).data.head? = some '#') := by
      push_neg
      exact ⟨fun hd => hne (show goTrim line = "" from String.ext hd), hhash⟩
    simp [parseLine, h0, hmem, ← stripQuotes_eq_spec]

/-- Witness for C4: a comment line, an `'='`-free line and a quoted
assignment, each through the corresponding case of the theorem. -/
theorem parseLine_spec_witness :
    parseLine "  # note" = none ∧
    parseLine "plain words" = none ∧
    parseLine "  A = \"q\"  " = some ("A", "q") :=
  ⟨(parseLine_spec "  # note").1 (Or.inr rfl),
   (parseLine_spec "plain words").2.1 (by decide),
   ((parseLine_spec "  A = \"q\"  ").2.2 (by decide) (by decide) (by decide)).trans
     (by decide)⟩

theorem loadGo_error_cache (fs : FS) (names : List String) :
    ∀ st st', loadGo fs names st = (st', true) → st'.cache = st.cache := by
  induction names with
  | nil => intro st st' h; simp [loadGo] at h
  | cons n rest ih =>
    intro st st' h
    simp only [loadGo] at h
    split at h
    · exact ih st st' h
    · injection h with h1 h2; rw [← h1]
    · split at h
      · injection h with h1 h2; rw [← h1]
      · rename_i env₁ happ
        exact ih ⟨env₁, st.cache⟩ st' h

theorem applyLines_ok (lines : List String) :
    ∀ env env', applyLines env lines = .ok env' →
      env' = (lines.filterMap parseLine).reverse ++ env := by
  induction lines with
  | nil =>
    intro env env' h
    simp only [applyLines] at h
    injection h with h1
    simp [← h1]
  | cons line rest ih =>
    intro env env' h
    simp only [applyLines] at h
    split at h
    · rename_i hp
      rw [List.filterMap_cons, hp]
      exact ih env env' h
    · rename_i p hp
      split at h
      · have hrec := ih _ _ h
        rw [List.filterMap_cons, hp, hrec]
        simp
      · exact absurd h (by simp)

theorem loadGo_success (fs : FS) (names : List String) :
    ∀ st st', loadGo fs names st = (st', false) →
      st'.cache = [] ∧ st'.env = (loadAssignments fs names).reverse ++ st.env := by
  induction names with
  | nil =>
    intro st st' h
    simp only [loadGo] at h
    injection h with h1 h2
    rw [← h1]
    simp [ClearCache, loadAssignments]
  | cons n rest ih =>
    intro st st' h
    simp only [loadGo] at h
    split at h <;> rename_i hsr
    · have hrec := ih st st' h
      simpa [loadAssignments, hsr] using hrec
    · exact absurd h (by simp)
    · rename_i s
      split at h
      · exact absurd h (by simp)
      · rename_i env₁ happ
        have hrec := ih _ st' h
        have he := applyLines_ok _ _ _ happ
        refine ⟨hrec.1, ?_⟩
        rw [hrec.2, he]
        simp [loadAssignments, hsr, fileAssignments]

/-- C6: `Load` skips a nonexistent file silently; an existing unreadable
file makes it return the error at once with the state as already mutated
(earlier files' variables kept, no rollback); on any error return the cache
is exactly what it was before the call. -/
theorem load_error_handling (fs : FS) (n : String) (rest names : List String)
    (st st' : St) :
    (statRead fs n = .absent → loadGo fs (n :: rest) st = loadGo fs rest st) ∧
    (statRead fs n = .unreadable → loadGo fs (n :: rest) st = (st, true)) ∧
    (Load fs names st = (st', true) → st'.cache = st.cache) :=
  ⟨fun h => by simp [loadGo, h],
   fun h => by simp [loadGo, h],
   fun h => loadGo_error_cache fs _ st st' h⟩

/-- Witness for C6: a missing file is skipped, the following unreadable
file aborts with the incoming state (its cache included) intact. -/
theorem load_error_handling_witness :
    loadGo [("b", FileRes.unreadable)] ["missing", "b"] ⟨[("A", "a")], [("C", "c")]⟩ =
      loadGo [("b", FileRes.unreadable)] ["b"] ⟨[("A", "a")], [("C", "c")]⟩ ∧
    loadGo [("b", FileRes.unreadable)] ["b"] ⟨[("A", "a")], [("C", "c")]⟩ =
      (⟨[("A", "a")], [("C", "c")]⟩, true) ∧
    (⟨[("A", "a")], [("C", "c")]⟩ : St).cache = [("C", "c")] :=
  ⟨(load_error_handling [("b", .unreadable)] "missing" ["b"] [] ⟨[("A", "a")], [("C", "c")]⟩
      ⟨[("A", "a")], [("C", "c")]⟩).1 rfl,
   (load_error_handling [("b", .unreadable)] "b" [] [] ⟨[("A", "a")], [("C", "c")]⟩
      ⟨[("A", "a")], [("C", "c")]⟩).2.1 rfl,
   (load_error_handling [("b", .unreadable)] "b" [] ["missing", "b"]
      ⟨[("A", "a")], [("C", "c")]⟩ ⟨[("A", "a")], [("C", "c")]⟩).2.2 rfl⟩

/-- C7: a `Load` that returns success leaves the cache empty, whatever it
held before. -/
theorem load_success_clears_cache (fs : FS) (names : List String) (st st' : St)
    (h : Load fs names st = (st', false)) : st'.cache = [] :=
  (loadGo_success fs (defaultNames names) st st' h).1

/-- Witness for C7: loading the default `.env` over a non-empty cache
leaves the cache empty. -/
theorem load_success_clears_cache_witness :
    ((⟨[("A", "1")], []⟩ : St)).cache = [] :=
  load_success_clears_cache [(".env", .content "A=1")] [] ⟨[], [("B", "b")]⟩
    ⟨[("A", "1")], []⟩ (by decide)

/-- C5: after a successful `Load`, a key's environment value is the value
of the last assignment processed for it across all loaded files in order,
and a key never assigned keeps its prior value. -/
theorem load_last_assignment_wins (fs : FS) (names : List String) (st st' : St)
    (h : Load fs names st = (st', false)) (k : String) :
    envLookup st'.env k =
      (lastVal (loadAssignments fs (defaultNames names)) k).or (envLookup st.env k) := by
  have hs := loadGo_success fs (defaultNames names) st st' h
  rw [hs.2]
  unfold envLookup lastVal
  rw [List.find?_append]
  rcases hf : (((loadAssignments fs (defaultNames names)).reverse).find?
      (fun p => p.1 == k)) with _ | p0 <;> simp [hf]

/-- Witness for C5: the spec's two-file example; the later file's value for
`SHARED` wins over the earlier file's and over the pre-existing value. -/
theorem load_last_assignment_wins_witness :
    envLookup
      ((⟨[("SHARED", "from_custom"), ("SHARED", "from_default"), ("SHARED", "old")], []⟩ :
        St)).env "SHARED" = some "from_custom" :=
  (load_last_assignment_wins
    [("a", .content "SHARED=from_default"), ("b", .content "SHARED=from_custom")]
    ["a", "b"] ⟨[("SHARED", "old")], [("X", "x")]⟩
    ⟨[("SHARED", "from_custom"), ("SHARED", "from_default"), ("SHARED", "old")], []⟩
    (by decide) "SHARED").trans (by decide)

theorem dropWhile_eq_self_of_head (p : Char → Bool) (l : List Char)
    (h : ∀ c ∈ l.head?, p c = false) : l.dropWhile p = l := by
  cases l with
  | nil => rfl
  | cons a t => simp [List.dropWhile_cons, h a rfl]

theorem goTrimList_eq_self (l : List Char)
    (h1 : ∀ c ∈ l.head?, goIsSpace c = false)
    (h2 : ∀ c ∈ l.getLast?, goIsSpace c = false) : goTrimList l = l := by
  unfold goTrimList
  rw [dropWhile_eq_self_of_head goIsSpace l h1,
    dropWhile_eq_self_of_head goIsSpace l.reverse
      (by intro c hc; exact h2 c (by rwa [List.head?_reverse] at hc)),
    List.reverse_reverse]

theorem takeWhile_append_sep (p : Char → Bool) (y : Char) (ys : List Char)
    (hy : p y = false) :
    ∀ xs : List Char, (∀ a ∈ xs, p a = true) →
      (xs ++ y :: ys).takeWhile p = xs ∧ (xs ++ y :: ys).dropWhile p = y :: ys := by
  intro xs
  induction xs with
  | nil => intro _; simp [List.takeWhile_cons, List.dropWhile_cons, hy]
  | cons a t ih =>
    intro h
    have ha : p a = true := h a (List.mem_cons_self a t)
    have := ih fun b hb => h b (List.mem_cons_of_mem a hb)
    simp [List.takeWhile_cons, List.dropWhile_cons, ha, this.1, this.2]

theorem splitChar_no_sep (c : Char) : ∀ l : List Char, c ∉ l → splitChar c l = [l] := by
  intro l
  induction l with
  | nil => intro _; rfl
  | cons x xs ih =>
    intro h
    have hx : (x == c) = false := by
      simp only [beq_eq_false_iff_ne]
      exact fun hxc => h (hxc ▸ List.mem_cons_self x xs)
    have hr := ih fun hc => h (List.mem_cons_of_mem x hc)
    simp [splitChar, hx, hr]

theorem loadGo_content (fs : FS) (n : String) (rest : List String) (st : St) (s : String)
    (hsr : statRead fs n = .content s) (env₁ : Env)
    (happ : applyLines st.env (splitLines s) = .ok env₁) :
    loadGo fs (n :: rest) st = loadGo fs rest ⟨env₁, st.cache⟩ := by
  simp only [loadGo, hsr, happ]

/-- C9 counterexample: writing `K="hi"` and loading it, `GetString("K","")`
returns `hi` with the quotes stripped, not the written value `"hi"`. -/
theorem roundtrip_quoted_counterexample :
    (GetString (Load [("f", .content "K=\"hi\"")] ["f"] ⟨[], []⟩).1 "K" "").1 ≠ "\"hi\"" := by
  decide

/-- C9 amended: the round-trip `KEY=VAL` → `Load` → `GetString(KEY,"")`
returns `VAL` provided the written texts survive the loader's grammar:
`KEY` and `VAL` carry no surrounding whitespace and no newline or NUL,
`KEY` is nonempty, does not start the line as a comment and contains no
`'='`, and `VAL` is not wrapped in a matching quote pair. -/
theorem roundtrip_amended (K V : String) (E C : Env)
    (hKhead : ∀ c ∈ K.data.head?, goIsSpace c = false)
    (hKlast : ∀ c ∈ K.data.getLast?, goIsSpace c = false)
    (hVhead : ∀ c ∈ V.data.head?, goIsSpace c = false)
    (hVlast : ∀ c ∈ V.data.getLast?, goIsSpace c = false)
    (hKne : K.data ≠ [])
    (hKhash : K.data.head? ≠ some '#')
    (hKeq : '=' ∉ K.data)
    (hKnl : Char.ofNat 10 ∉ K.data)
    (hVnl : Char.ofNat 10 ∉ V.data)
    (hKnul : Char.ofNat 0 ∉ K.data)
    (hVnul : Char.ofNat 0 ∉ V.data)
    (hVq : stripQuotes V = V) :
    (GetString (Load [("f", .content (K ++ "=" ++ V))] ["f"] ⟨E, C⟩).1 K "").1 = V := by
  have hdata : (K ++ "=" ++ V).data = K.data ++ '=' :: V.data := by
    simp [String.data_append]
  -- the whole line is already trimmed
  have htrim : goTrimList (K.data ++ '=' :: V.data) = K.data ++ '=' :: V.data := by
    apply goTrimList_eq_self
    · intro c hc
      cases hK : K.data with
      | nil => exact absurd hK hKne
      | cons k0 kr =>
        rw [hK] at hc
        simp only [List.cons_append, List.head?_cons, Option.mem_def,
          Option.some.injEq] at hc
        exact hc ▸ hKhead k0 (by rw [hK]; rfl)
    · intro c hc
      cases hV : V.data with
      | nil =>
        rw [hV, List.getLast?_append_of_ne_nil _ (by simp)] at hc
        simp only [Option.mem_def] at hc
        cases hc
        decide
      | cons v0 vr =>
        rw [hV, List.getLast?_append_of_ne_nil _ (by simp)] at hc
        have : (('=' :: v0 :: vr).getLast?) = (v0 :: vr).getLast? := by
          rw [show ('=' :: v0 :: vr) = ['='] ++ v0 :: vr from rfl,
            List.getLast?_append_of_ne_nil _ (by simp)]
        rw [this] at hc
        exact hVlast c (by rw [hV]; exact hc)
  -- splitting at the first '=' recovers KEY and VAL
  have hsplit := takeWhile_append_sep (fun c => c != '=') '=' V.data (by simp) K.data
    (fun a ha => by
      simp only [bne_iff_ne, ne_eq, decide_eq_true_eq]
      exact fun hae => hKeq (hae ▸ ha))
  have hKtrim : goTrim K = K := String.ext (goTrimList_eq_self K.data hKhead hKlast)
  have hVtrim : goTrim V = V := String.ext (goTrimList_eq_self V.data hVhead hVlast)
  have hparse : parseLine (K ++ "=" ++ V) = some (K, V) := by
    have hgt : goTrim (K ++ "=" ++ V) = ⟨K.data ++ '=' :: V.data⟩ := by
      unfold goTrim
      rw [hdata, htrim]
    unfold parseLine
    rw [hgt]
    have hne : ¬ (K.data ++ '=' :: V.data = [] ∨
        (K.data ++ '=' :: V.data).head? = some '#') := by
      push_neg
      refine ⟨by simp, ?_⟩
      cases hK : K.data with
      | nil => exact absurd hK hKne
      | cons k0 kr =>
        simp only [List.cons_append, List.head?_cons, ne_eq, Option.some.injEq]
        intro hk0
        exact hKhash (by rw [hK, hk0]; rfl)
    rw [if_neg hne, if_pos (by simp)]
    rw [hsplit.1, hsplit.2]
    simp only [List.tail_cons]
    rw [hKtrim, hVtrim, hVq]
  -- the load applies exactly the one assignment and clears the cache
  have hlines : splitLines (K ++ "=" ++ V) = [K ++ "=" ++ V] := by
    unfold splitLines
    rw [splitChar_no_sep (Char.ofNat 10) _ (by
      rw [hdata]
      intro hmem
      rcases List.mem_append.mp hmem with h | h
      · exact hKnl h
      · rcases List.mem_cons.mp h with h | h
        · cases h
        · exact hVnl h)]
    simp only [List.map_cons, List.map_nil]
  have hset : setenvOk K V = true := by
    simp [setenvOk, String.ext_iff, hKne, hKeq, hKnul, hVnul]
  have h1 : applyLines E (splitLines (K ++ "=" ++ V)) = .ok ((K, V) :: E) := by
    rw [hlines]
    simp only [applyLines, hparse, hset, if_true]
  have hstep := loadGo_content [("f", .content (K ++ "=" ++ V))] "f" [] ⟨E, C⟩
    (K ++ "=" ++ V) rfl ((K, V) :: E) h1
  have hload : Load [("f", .content (K ++ "=" ++ V))] ["f"] ⟨E, C⟩ =
      (⟨(K, V) :: E, []⟩, false) := by
    calc Load [("f", .content (K ++ "=" ++ V))] ["f"] ⟨E, C⟩
        = loadGo [("f", .content (K ++ "=" ++ V))] ["f"] ⟨E, C⟩ := rfl
      _ = loadGo [("f", .content (K ++ "=" ++ V))] [] ⟨(K, V) :: E, C⟩ := hstep
      _ = (⟨(K, V) :: E, []⟩, false) := rfl
  rw [hload]
  -- GetString on the fresh cache returns V, whether or not V is empty
  by_cases hVe : V = ""
  · subst hVe
    simp [GetString, envLookup]
  · simp [GetString, envLookup, hVe]

/-- Witness for the amended C9 at `K=v` over a non-trivial prior state. -/
theorem roundtrip_amended_witness :
    (GetString (Load [("f", .content ("K" ++ "=" ++ "v"))] ["f"]
      ⟨[("K", "old")], [("K", "cached")]⟩).1 "K" "").1 = "v" :=
  roundtrip_amended "K" "v" [("K", "old")] [("K", "cached")]
    (by decide) (by decide) (by decide) (by decide) (by decide) (by decide)
    (by decide) (by decide) (by decide) (by decide) (by decide) (by decide)

end Dotenv
